import Mathlib

/-!
# Verification of AdGuardHome subsystem behavior

A shallow embedding, in Lean 4, of the parts of the AdGuardHome code base
that the specification's claims are about:

* hostname generation and hosts-file parsing (`internal/aghnet/etchostscontainer.go`),
* the WHOIS enrichment `Begin` rate-limiter (`internal/home`, whois),
* the Apple mobile-configuration HTTP handlers (`internal/home`, mobileconfig),
* the statistics configuration HTTP handlers (`internal/stats/http.go`),
* the DNS pipeline stages for DDR and DHCP-hosts resolution (`internal/dnsforward`),
* the DHCPv4 static-lease table operations (`internal/dhcpd`),
* the administration client `FilterStatus` entity (`client2`).

Pure functions are translated into Lean functions; stateful handlers are
translated into explicit state-passing functions.  Machine integers are
modelled as `Nat`/`Fin`; fallible operations return `Option`/`Except`.
Functions whose implementation is not part of the presented sources are
modelled from the specification and marked as such in their doc comments.
-/

namespace AghnetM

/-- Decimal digit character for `n % 10`. -/
def digitChar (n : Nat) : Char :=
  match n % 10 with
  | 0 => '0' | 1 => '1' | 2 => '2' | 3 => '3' | 4 => '4'
  | 5 => '5' | 6 => '6' | 7 => '7' | 8 => '8' | _ => '9'

/-- Lowercase hexadecimal digit character for `n % 16`. -/
def hexDigitChar (n : Nat) : Char :=
  match n % 16 with
  | 0 => '0' | 1 => '1' | 2 => '2' | 3 => '3' | 4 => '4'
  | 5 => '5' | 6 => '6' | 7 => '7' | 8 => '8' | 9 => '9'
  | 10 => 'a' | 11 => 'b' | 12 => 'c' | 13 => 'd' | 14 => 'e' | _ => 'f'

/-- Decimal rendering of one IPv4 octet, as `netip.Addr.String` renders each
dotted-decimal component. -/
def octetChars (n : Fin 256) : List Char :=
  if n.val < 10 then [digitChar n.val]
  else if n.val < 100 then [digitChar (n.val / 10), digitChar n.val]
  else [digitChar (n.val / 100), digitChar (n.val / 10), digitChar n.val]

/-- Four-digit, zero-padded, lowercase hexadecimal rendering of one IPv6
hextet, as `netip.Addr.StringExpanded` renders each group. -/
def hextetChars (n : Fin 65536) : List Char :=
  [hexDigitChar (n.val / 4096), hexDigitChar (n.val / 256),
   hexDigitChar (n.val / 16), hexDigitChar n.val]

def dotChar : Char := '.'

def dashChar : Char := '-'

def colonChar : Char := ':'

/-- Model of `netip.Addr`: the invalid zero value, an IPv4 address of four
octets, or an IPv6 address of eight hextets. -/
inductive Addr where
  | invalid : Addr
  | v4 : Fin 256 → Fin 256 → Fin 256 → Fin 256 → Addr
  | v6 : Fin 65536 → Fin 65536 → Fin 65536 → Fin 65536 →
      Fin 65536 → Fin 65536 → Fin 65536 → Fin 65536 → Addr
deriving DecidableEq

/-- Model of `netip.Addr.Unmap`: an IPv4-mapped IPv6 address
(`::ffff:a.b.c.d`) becomes the corresponding IPv4 address; every other
address is returned unchanged. -/
def Addr.unmap : Addr → Addr
  | .v6 a b c d e f g h =>
    if a = 0 ∧ b = 0 ∧ c = 0 ∧ d = 0 ∧ e = 0 ∧ f = 65535 then
      .v4 ⟨g.val / 256, by have := g.isLt; omega⟩ ⟨g.val % 256, by omega⟩
        ⟨h.val / 256, by have := h.isLt; omega⟩ ⟨h.val % 256, by omega⟩
    else .v6 a b c d e f g h
  | a => a

/-- The dotted-decimal character sequence of an IPv4 address
(`netip.Addr.String` on an IPv4 address). -/
def ipv4Chars (a b c d : Fin 256) : List Char :=
  octetChars a ++ [dotChar] ++ octetChars b ++ [dotChar] ++
    octetChars c ++ [dotChar] ++ octetChars d

/-- The fully expanded, zero-padded, colon-separated character sequence of an
IPv6 address (`netip.Addr.StringExpanded`). -/
def ipv6ExpandedChars (a b c d e f g h : Fin 65536) : List Char :=
  hextetChars a ++ [colonChar] ++ hextetChars b ++ [colonChar] ++
    hextetChars c ++ [colonChar] ++ hextetChars d ++ [colonChar] ++
    hextetChars e ++ [colonChar] ++ hextetChars f ++ [colonChar] ++
    hextetChars g ++ [colonChar] ++ hextetChars h

/-- Model of `strings.Replace(s, old, new, -1)` for one-character patterns:
every occurrence of `o` is replaced by `n`. -/
def replaceChars (s : List Char) (o n : Char) : List Char :=
  s.map fun c => if c = o then n else c

/-- Model of `GenerateHostname` from `etchostscontainer.go`.  The Go function
panics on an invalid address, modelled here as `none`; otherwise it unmaps
the address and renders the IPv4 dotted-decimal form with dots replaced by
dashes, or the expanded IPv6 form with colons replaced by dashes. -/
def GenerateHostname (ip : Addr) : Option String :=
  match ip with
  | .invalid => none
  | a =>
    match a.unmap with
    | .invalid => none
    | .v4 x y z w =>
      some (String.mk (replaceChars (ipv4Chars x y z w) dotChar dashChar))
    | .v6 x y z w u v s t =>
      some (String.mk
        (replaceChars (ipv6ExpandedChars x y z w u v s t) colonChar dashChar))

theorem digitChar_ne_dot (m : Nat) : digitChar m ≠ dotChar := by
  unfold digitChar dotChar
  split <;> decide

theorem digitChar_ne_colon (m : Nat) : digitChar m ≠ colonChar := by
  unfold digitChar colonChar
  split <;> decide

theorem hexDigitChar_ne_colon (m : Nat) : hexDigitChar m ≠ colonChar := by
  unfold hexDigitChar colonChar
  split <;> decide

theorem replaceChars_append (s t : List Char) (o n : Char) :
    replaceChars (s ++ t) o n = replaceChars s o n ++ replaceChars t o n := by
  simp [replaceChars]

theorem replaceChars_octet (m : Fin 256) (n : Char) :
    replaceChars (octetChars m) dotChar n = octetChars m := by
  unfold octetChars
  split <;> [skip; split] <;>
    simp [replaceChars, digitChar_ne_dot]

theorem replaceChars_hextet (m : Fin 65536) (n : Char) :
    replaceChars (hextetChars m) colonChar n = hextetChars m := by
  simp [replaceChars, hextetChars, hexDigitChar_ne_colon]

theorem replaceChars_dot (n : Char) :
    replaceChars [dotChar] dotChar n = [n] := by
  simp [replaceChars]

theorem replaceChars_colon (n : Char) :
    replaceChars [colonChar] colonChar n = [n] := by
  simp [replaceChars]

/-- C7: `GenerateHostname` maps a valid IPv4 address to its dotted-decimal
form with every dot replaced by a dash, maps a valid (non-IPv4-mapped) IPv6
address to its fully expanded, zero-padded, colon-separated form with every
colon replaced by a dash, fails fatally (modelled as `none`) exactly on the
invalid address, and under the precondition that the input is valid the
failure branch is unreachable. -/
theorem c7_generate_hostname :
    GenerateHostname Addr.invalid = none
    ∧ (∀ ip : Addr, ip ≠ Addr.invalid → (GenerateHostname ip).isSome)
    ∧ (∀ a b c d : Fin 256,
        GenerateHostname (Addr.v4 a b c d) =
          some (String.mk (octetChars a ++ [dashChar] ++ octetChars b ++
            [dashChar] ++ octetChars c ++ [dashChar] ++ octetChars d)))
    ∧ (∀ a b c d e f g h : Fin 65536,
        ¬(a = 0 ∧ b = 0 ∧ c = 0 ∧ d = 0 ∧ e = 0 ∧ f = 65535) →
        GenerateHostname (Addr.v6 a b c d e f g h) =
          some (String.mk (hextetChars a ++ [dashChar] ++ hextetChars b ++
            [dashChar] ++ hextetChars c ++ [dashChar] ++ hextetChars d ++
            [dashChar] ++ hextetChars e ++ [dashChar] ++ hextetChars f ++
            [dashChar] ++ hextetChars g ++ [dashChar] ++ hextetChars h))) := by
  refine ⟨rfl, ?_, ?_, ?_⟩
  · intro ip hip
    cases ip with
    | invalid => exact absurd rfl hip
    | v4 a b c d => simp [GenerateHostname, Addr.unmap]
    | v6 a b c d e f g h =>
      by_cases hm : a = 0 ∧ b = 0 ∧ c = 0 ∧ d = 0 ∧ e = 0 ∧ f = 65535 <;>
        simp [GenerateHostname, Addr.unmap, hm]
  · intro a b c d
    have hl : replaceChars (ipv4Chars a b c d) dotChar dashChar =
        octetChars a ++ [dashChar] ++ octetChars b ++ [dashChar] ++
          octetChars c ++ [dashChar] ++ octetChars d := by
      unfold ipv4Chars
      simp only [replaceChars_append, replaceChars_octet, replaceChars_dot]
    show some (String.mk (replaceChars (ipv4Chars a b c d) dotChar dashChar)) = _
    rw [hl]
  · intro a b c d e f g h hne
    have hl : replaceChars (ipv6ExpandedChars a b c d e f g h) colonChar dashChar =
        hextetChars a ++ [dashChar] ++ hextetChars b ++ [dashChar] ++
          hextetChars c ++ [dashChar] ++ hextetChars d ++ [dashChar] ++
          hextetChars e ++ [dashChar] ++ hextetChars f ++ [dashChar] ++
          hextetChars g ++ [dashChar] ++ hextetChars h := by
      unfold ipv6ExpandedChars
      simp only [replaceChars_append, replaceChars_hextet, replaceChars_colon]
    simp only [GenerateHostname, Addr.unmap, if_neg hne]
    rw [hl]

/-- Witness for C7: the specification's own IPv4 and IPv6 examples,
`192.168.10.1 ↦ 192-168-10-1` and `ff80:f076:: ... :0010` fully expanded. -/
theorem c7_generate_hostname_witness :
    GenerateHostname (Addr.v4 192 168 10 1) = some "192-168-10-1"
    ∧ GenerateHostname (Addr.v6 0xff80 0xf076 0 0 0 0 0 0x10) =
        some "ff80-f076-0000-0000-0000-0000-0000-0010" := by
  constructor
  · rw [c7_generate_hostname.2.2.1 192 168 10 1]
    rfl
  · rw [c7_generate_hostname.2.2.2 0xff80 0xf076 0 0 0 0 0 0x10 (by decide)]
    rfl

end AghnetM

namespace EtcHosts

/-- ASCII whitespace recognized by the model of `strings.Fields`. -/
def isSpaceChar (c : Char) : Bool :=
  c = ' ' ∨ c = '\t' ∨ c = '\n' ∨ c = '\r'

/-- Accumulator pass behind `fields`: split a character list at whitespace,
dropping empty fields.  `acc` holds the current field, reversed. -/
def fieldsChars (acc : List Char) : List Char → List String
  | [] => if acc = [] then [] else [String.mk acc.reverse]
  | c :: cs =>
    if isSpaceChar c then
      if acc = [] then fieldsChars [] cs
      else String.mk acc.reverse :: fieldsChars [] cs
    else fieldsChars (c :: acc) cs

/-- Model of `strings.Fields`: the whitespace-separated fields of a string,
with no empty fields. -/
def fields (s : String) : List String :=
  fieldsChars [] s.data

/-- Model of `strings.TrimSpace` restricted to the ASCII whitespace of
`isSpaceChar`. -/
def trimS (s : String) : String :=
  String.mk (((s.data.dropWhile isSpaceChar).reverse.dropWhile
    isSpaceChar).reverse)

def hashChar : Char := '#'

/-- Model of `strings.IndexByte(f, '#')`: the index of the first occurrence
of `target`, or `none` when absent (Go returns -1). -/
def indexOfChar (cs : List Char) (target : Char) : Option Nat :=
  match cs with
  | [] => none
  | c :: rest =>
    if c = target then some 0 else (indexOfChar rest target).map (· + 1)

/-- Model of `parseHostsLine` from `etchostscontainer.go`: collect host-name
fields; a field whose first character is a hash ends the line without
contributing; a field with a hash later contributes its prefix before the
hash as the final host name; fields without a hash are host names. -/
def parseHostsLine : List String → List String
  | [] => []
  | f :: rest =>
    match indexOfChar f.data hashChar with
    | some 0 => []
    | some (i + 1) => [String.mk (f.data.take (i + 1))]
    | none => f :: parseHostsLine rest

section HostsTables

variable {IP : Type} [DecidableEq IP]

/-- Model of `updateTable` from `etchostscontainer.go`: append `ip` to the
forward list of `host` unless already present; a new host gets a singleton
entry.  Go's map is modelled as an association list. -/
def updateTable : List (String × List IP) → String → IP → List (String × List IP)
  | [], host, ip => [(host, [ip])]
  | (h, ips) :: rest, host, ip =>
    if h = host then
      (if ip ∈ ips then (h, ips) else (h, ips ++ [ip])) :: rest
    else (h, ips) :: updateTable rest host ip

/-- Model of `updateTableRev` from `etchostscontainer.go`: append `newHost`
to the reverse list of the IP's string form unless already present. -/
def updateTableRev :
    List (String × List String) → String → String → List (String × List String)
  | [], newHost, ipStr => [(ipStr, [newHost])]
  | (k, hs) :: rest, newHost, ipStr =>
    if k = ipStr then
      (if newHost ∈ hs then (k, hs) else (k, hs ++ [newHost])) :: rest
    else (k, hs) :: updateTableRev rest newHost ipStr

/-- One line of `load` from `etchostscontainer.go`: trim, split into fields,
skip the line when it has fewer than two fields or its first field does not
parse as an IP address, and otherwise insert every host parsed from the
remaining fields into both tables.  `parseIP` models `net.ParseIP` and
`ipStr` models `net.IP.String`. -/
def loadLine (parseIP : String → Option IP) (ipStr : IP → String)
    (tabs : List (String × List IP) × List (String × List String))
    (line : String) :
    List (String × List IP) × List (String × List String) :=
  match fields (trimS line) with
  | f0 :: f1 :: fs =>
    match parseIP f0 with
    | none => tabs
    | some ip =>
      (parseHostsLine (f1 :: fs)).foldl
        (fun tabs host =>
          (updateTable tabs.1 host ip, updateTableRev tabs.2 host (ipStr ip)))
        tabs
  | _ => tabs

/-- Model of `load`: fold `loadLine` over all lines, starting from the fresh
tables built by `updateHosts`. -/
def load (parseIP : String → Option IP) (ipStr : IP → String)
    (lines : List String) :
    List (String × List IP) × List (String × List String) :=
  lines.foldl (loadLine parseIP ipStr) ([], [])

/-- The (host, ip) pairs that one line contributes, in order. -/
def pairsOfLine (parseIP : String → Option IP) (line : String) :
    List (String × IP) :=
  match fields (trimS line) with
  | f0 :: f1 :: fs =>
    match parseIP f0 with
    | none => []
    | some ip => (parseHostsLine (f1 :: fs)).map fun host => (host, ip)
  | _ => []

/-- The (host, ip) pairs that a list of lines contributes, in discovery
order. -/
def discovered (parseIP : String → Option IP) (lines : List String) :
    List (String × IP) :=
  (lines.map (pairsOfLine parseIP)).flatten

/-- Association-list lookup, modelling Go map indexing with its ok flag. -/
def alLookup {β : Type} : List (String × β) → String → Option β
  | [], _ => none
  | (k, v) :: rest, key => if k = key then some v else alLookup rest key

/-- The IPs discovered for one host, in discovery order. -/
def valsFor (pairs : List (String × IP)) (host : String) : List IP :=
  pairs.filterMap fun p => if p.1 = host then some p.2 else none

/-- The hosts discovered for one IP string form, in discovery order. -/
def revHostsFor (ipStr : IP → String) (pairs : List (String × IP))
    (k : String) : List String :=
  pairs.filterMap fun p => if ipStr p.2 = k then some p.1 else none

end HostsTables

/-- First-occurrence deduplication: keeps the first appearance of each
element not yet seen, preserving order. -/
def dedupFirst {α : Type} [DecidableEq α] (seen : List α) : List α → List α
  | [] => []
  | x :: xs =>
    if x ∈ seen then dedupFirst seen xs else x :: dedupFirst (x :: seen) xs

/-- A field free of the hash character. -/
def HashFree (f : String) : Prop := ∀ c ∈ f.data, c ≠ hashChar

instance (f : String) : Decidable (HashFree f) :=
  inferInstanceAs (Decidable (∀ c ∈ f.data, c ≠ hashChar))

section HostsProofs

variable {IP : Type} [DecidableEq IP]

/-- The effect of one Go-map bucket update: a fresh singleton for a missing
key, or an append-if-absent on the present list. -/
def bucketInsert (o : Option (List IP)) (ip : IP) : List IP :=
  match o with
  | none => [ip]
  | some ips => if ip ∈ ips then ips else ips ++ [ip]

/-- Folding `updateTable` over a pair list. -/
def foldUpd (pairs : List (String × IP)) (t : List (String × List IP)) :
    List (String × List IP) :=
  pairs.foldl (fun t p => updateTable t p.1 p.2) t

/-- Folding `updateTableRev` over a pair list. -/
def foldRev (ipStr : IP → String) (pairs : List (String × IP))
    (t : List (String × List String)) : List (String × List String) :=
  pairs.foldl (fun t p => updateTableRev t p.1 (ipStr p.2)) t

/-- Iterated bucket insertion for one key. -/
def insertVals (o : Option (List IP)) (vs : List IP) : Option (List IP) :=
  vs.foldl (fun o v => some (bucketInsert o v)) o

/-- Iterated append-if-absent on a concrete list. -/
def listInsert (ips : List IP) (vs : List IP) : List IP :=
  vs.foldl (fun ips v => if v ∈ ips then ips else ips ++ [v]) ips

theorem indexOfChar_eq_none (cs : List Char) (t : Char) (h : ∀ c ∈ cs, c ≠ t) :
    indexOfChar cs t = none := by
  induction cs with
  | nil => rfl
  | cons c rest ih =>
    simp only [indexOfChar]
    rw [if_neg (h c (by simp)), ih fun x hx => h x (by simp [hx])]
    rfl

theorem parseHostsLine_cons_none (f : String) (rest : List String)
    (h : indexOfChar f.data hashChar = none) :
    parseHostsLine (f :: rest) = f :: parseHostsLine rest := by
  simp only [parseHostsLine, h]

theorem parseHostsLine_cons_zero (f : String) (rest : List String)
    (h : indexOfChar f.data hashChar = some 0) :
    parseHostsLine (f :: rest) = [] := by
  simp only [parseHostsLine, h]

theorem parseHostsLine_cons_pos (f : String) (rest : List String) (i : Nat)
    (h : indexOfChar f.data hashChar = some (i + 1)) :
    parseHostsLine (f :: rest) = [String.mk (f.data.take (i + 1))] := by
  simp only [parseHostsLine, h]

theorem alLookup_updateTable (t : List (String × List IP)) (host : String)
    (ip : IP) (key : String) :
    alLookup (updateTable t host ip) key =
      if key = host then some (bucketInsert (alLookup t host) ip)
      else alLookup t key := by
  induction t with
  | nil =>
    by_cases hk : key = host
    · subst hk
      simp [updateTable, alLookup, bucketInsert]
    · have hk2 : ¬host = key := fun e => hk e.symm
      simp [updateTable, alLookup, bucketInsert, hk, hk2]
  | cons p rest ih =>
    obtain ⟨h, ips⟩ := p
    by_cases hh : h = host
    · subst hh
      by_cases hk : key = h
      · subst hk
        by_cases hmem : ip ∈ ips <;>
          simp [updateTable, alLookup, bucketInsert, hmem]
      · have hk2 : ¬h = key := fun e => hk e.symm
        by_cases hmem : ip ∈ ips <;>
          simp [updateTable, alLookup, bucketInsert, hmem, hk, hk2]
    · by_cases hk : key = h
      · have hhk : h = key := hk.symm
        have hkh : ¬key = host := by
          rw [hk]
          exact hh
        simp only [updateTable, if_neg hh, alLookup, if_pos hhk, if_neg hkh]
      · have hhk : ¬h = key := fun e => hk e.symm
        simp only [updateTable, if_neg hh, alLookup, if_neg hhk]
        rw [ih]

theorem valsFor_cons (p : String × IP) (ps : List (String × IP))
    (host : String) :
    valsFor (p :: ps) host =
      if p.1 = host then p.2 :: valsFor ps host else valsFor ps host := by
  by_cases h : p.1 = host <;> simp [valsFor, h]

theorem alLookup_foldUpd (pairs : List (String × IP))
    (t : List (String × List IP)) (key : String) :
    alLookup (foldUpd pairs t) key =
      insertVals (alLookup t key) (valsFor pairs key) := by
  induction pairs generalizing t with
  | nil => rfl
  | cons p ps ih =>
    obtain ⟨h, ip⟩ := p
    rw [show foldUpd ((h, ip) :: ps) t = foldUpd ps (updateTable t h ip) from rfl]
    rw [ih, alLookup_updateTable, valsFor_cons]
    by_cases hk : key = h
    · subst hk
      simp only [if_pos rfl]
      rfl
    · rw [if_neg hk, if_neg fun hh => hk hh.symm]

theorem insertVals_some (ips vs : List IP) :
    insertVals (some ips) vs = some (listInsert ips vs) := by
  induction vs generalizing ips with
  | nil => rfl
  | cons v vs ih =>
    rw [show insertVals (some ips) (v :: vs) =
      insertVals (some (if v ∈ ips then ips else ips ++ [v])) vs from rfl]
    rw [ih]
    rfl

theorem listInsert_eq_dedupFirst (vs ips seen : List IP)
    (hms : ∀ y, y ∈ seen ↔ y ∈ ips) :
    listInsert ips vs = ips ++ dedupFirst seen vs := by
  induction vs generalizing ips seen with
  | nil => simp [listInsert, dedupFirst]
  | cons v vs ih =>
    by_cases hv : v ∈ ips
    · rw [show listInsert ips (v :: vs) =
        listInsert (if v ∈ ips then ips else ips ++ [v]) vs from rfl]
      rw [if_pos hv, ih ips seen hms]
      rw [show dedupFirst seen (v :: vs) = dedupFirst seen vs from
        by rw [dedupFirst, if_pos ((hms v).mpr hv)]]
    · rw [show listInsert ips (v :: vs) =
        listInsert (if v ∈ ips then ips else ips ++ [v]) vs from rfl]
      rw [if_neg hv]
      rw [ih (ips ++ [v]) (v :: seen) fun y => by
        simp [hms y, or_comm]]
      rw [show dedupFirst seen (v :: vs) = v :: dedupFirst (v :: seen) vs from
        by rw [dedupFirst, if_neg fun h => hv ((hms v).mp h)]]
      simp

theorem insertVals_none_eq (vs : List IP) :
    insertVals (none : Option (List IP)) vs =
      if vs = [] then none else some (dedupFirst [] vs) := by
  cases vs with
  | nil => rfl
  | cons v vs =>
    rw [if_neg (by simp)]
    rw [show insertVals (none : Option (List IP)) (v :: vs) =
      insertVals (some [v]) vs from rfl]
    rw [insertVals_some]
    rw [listInsert_eq_dedupFirst vs [v] [v] fun y => Iff.rfl]
    rw [show dedupFirst ([] : List IP) (v :: vs) = v :: dedupFirst [v] vs from
      by rw [dedupFirst, if_neg (by simp)]]
    rfl

theorem foldl_pair_split (hosts : List String) (ip : IP) (ipStr : IP → String)
    (t1 : List (String × List IP)) (t2 : List (String × List String)) :
    hosts.foldl (fun tabs host =>
        (updateTable tabs.1 host ip, updateTableRev tabs.2 host (ipStr ip)))
        (t1, t2) =
      (foldUpd (hosts.map fun host => (host, ip)) t1,
       foldRev ipStr (hosts.map fun host => (host, ip)) t2) := by
  induction hosts generalizing t1 t2 with
  | nil => rfl
  | cons h hs ih =>
    simpa [foldUpd, foldRev] using
      ih (updateTable t1 h ip) (updateTableRev t2 h (ipStr ip))

theorem loadLine_eq (parseIP : String → Option IP) (ipStr : IP → String)
    (tabs : List (String × List IP) × List (String × List String))
    (line : String) :
    loadLine parseIP ipStr tabs line =
      (foldUpd (pairsOfLine parseIP line) tabs.1,
       foldRev ipStr (pairsOfLine parseIP line) tabs.2) := by
  obtain ⟨t1, t2⟩ := tabs
  simp only [loadLine, pairsOfLine]
  cases hf : fields (trimS line) with
  | nil => rfl
  | cons f0 rest =>
    cases rest with
    | nil => rfl
    | cons f1 fs =>
      dsimp only
      cases hp : parseIP f0 with
      | none => rfl
      | some ip => exact foldl_pair_split (parseHostsLine (f1 :: fs)) ip ipStr t1 t2

theorem foldUpd_append (xs ys : List (String × IP))
    (t : List (String × List IP)) :
    foldUpd (xs ++ ys) t = foldUpd ys (foldUpd xs t) := by
  simp [foldUpd, List.foldl_append]

theorem foldRev_append (ipStr : IP → String) (xs ys : List (String × IP))
    (t : List (String × List String)) :
    foldRev ipStr (xs ++ ys) t = foldRev ipStr ys (foldRev ipStr xs t) := by
  simp [foldRev, List.foldl_append]

theorem load_eq (parseIP : String → Option IP) (ipStr : IP → String)
    (lines : List String) :
    load parseIP ipStr lines =
      (foldUpd (discovered parseIP lines) [],
       foldRev ipStr (discovered parseIP lines) []) := by
  suffices h : ∀ t1 t2, lines.foldl (loadLine parseIP ipStr) (t1, t2) =
      (foldUpd (discovered parseIP lines) t1,
       foldRev ipStr (discovered parseIP lines) t2) from h [] []
  induction lines with
  | nil => intro t1 t2; rfl
  | cons line rest ih =>
    intro t1 t2
    rw [show discovered parseIP (line :: rest) =
      pairsOfLine parseIP line ++ discovered parseIP rest from by
        simp [discovered]]
    rw [List.foldl_cons, loadLine_eq, ih, foldUpd_append, foldRev_append]

theorem updateTableRev_eq_updateTable (t : List (String × List String))
    (host s : String) :
    updateTableRev t host s = updateTable t s host := by
  induction t with
  | nil => rfl
  | cons p rest ih =>
    obtain ⟨k, hs⟩ := p
    simp only [updateTableRev, updateTable, ih]

theorem foldRev_eq_foldUpd (ipStr : IP → String) (pairs : List (String × IP))
    (t : List (String × List String)) :
    foldRev ipStr pairs t =
      foldUpd (pairs.map fun p => (ipStr p.2, p.1)) t := by
  induction pairs generalizing t with
  | nil => rfl
  | cons p ps ih =>
    rw [show foldRev ipStr (p :: ps) t =
      foldRev ipStr ps (updateTableRev t p.1 (ipStr p.2)) from rfl]
    rw [show foldUpd ((p :: ps).map fun p => (ipStr p.2, p.1)) t =
      foldUpd (ps.map fun p => (ipStr p.2, p.1))
        (updateTable t (ipStr p.2) p.1) from rfl]
    rw [updateTableRev_eq_updateTable, ih]

theorem valsFor_map_rev (ipStr : IP → String) (pairs : List (String × IP))
    (k : String) :
    valsFor (pairs.map fun p => (ipStr p.2, p.1)) k =
      revHostsFor ipStr pairs k := by
  simp only [valsFor, revHostsFor, List.filterMap_map]
  rfl

end HostsProofs

/-- C6: hosts-file loading.  A line with fewer than two fields, or whose
first field does not parse as an IP address, contributes nothing.  Host-name
fields stop at the first field containing a hash: a field starting with a
hash contributes no host name, a field with a hash later contributes its
prefix before the hash as the last host name, and hash-free fields are all
host names.  Each table maps a key to the exact first-seen-order
deduplication of the values discovered for it, in both the forward
host-to-IPs table and the reverse IP-to-hosts table. -/
theorem c6_hosts_file_parsing (IP : Type) [DecidableEq IP]
    (parseIP : String → Option IP) (ipStr : IP → String) :
    (∀ tabs line, (fields (trimS line)).length < 2 →
        loadLine parseIP ipStr tabs line = tabs)
    ∧ (∀ tabs line f0 f1 fs, fields (trimS line) = f0 :: f1 :: fs →
        parseIP f0 = none → loadLine parseIP ipStr tabs line = tabs)
    ∧ (∀ fs, (∀ f ∈ fs, HashFree f) → parseHostsLine fs = fs)
    ∧ (∀ pre f rest, (∀ g ∈ pre, HashFree g) →
        indexOfChar f.data hashChar = some 0 →
        parseHostsLine (pre ++ f :: rest) = pre)
    ∧ (∀ pre f rest i, (∀ g ∈ pre, HashFree g) →
        indexOfChar f.data hashChar = some (i + 1) →
        parseHostsLine (pre ++ f :: rest) =
          pre ++ [String.mk (f.data.take (i + 1))])
    ∧ (∀ lines host,
        alLookup (load parseIP ipStr lines).1 host =
          if valsFor (discovered parseIP lines) host = [] then none
          else some (dedupFirst [] (valsFor (discovered parseIP lines) host)))
    ∧ (∀ lines k,
        alLookup (load parseIP ipStr lines).2 k =
          if revHostsFor ipStr (discovered parseIP lines) k = [] then none
          else some (dedupFirst []
            (revHostsFor ipStr (discovered parseIP lines) k))) := by
  refine ⟨?_, ?_, ?_, ?_, ?_, ?_, ?_⟩
  · intro tabs line hlen
    cases hf : fields (trimS line) with
    | nil => simp only [loadLine, hf]
    | cons f0 rest =>
      cases rest with
      | nil => simp only [loadLine, hf]
      | cons f1 fs =>
        rw [hf] at hlen
        simp at hlen
        omega
  · intro tabs line f0 f1 fs hf hp
    simp only [loadLine, hf, hp]
  · intro fs h
    induction fs with
    | nil => rfl
    | cons f rest ih =>
      rw [parseHostsLine_cons_none f rest
        (indexOfChar_eq_none _ _ (h f (by simp)))]
      rw [ih fun g hg => h g (by simp [hg])]
  · intro pre f rest hpre hf
    induction pre with
    | nil => simpa using parseHostsLine_cons_zero f rest hf
    | cons g pre ih =>
      rw [List.cons_append]
      rw [parseHostsLine_cons_none g _
        (indexOfChar_eq_none _ _ (hpre g (by simp)))]
      rw [ih fun x hx => hpre x (by simp [hx])]
  · intro pre f rest i hpre hf
    induction pre with
    | nil => simpa using parseHostsLine_cons_pos f rest i hf
    | cons g pre ih =>
      rw [List.cons_append]
      rw [parseHostsLine_cons_none g _
        (indexOfChar_eq_none _ _ (hpre g (by simp)))]
      rw [ih fun x hx => hpre x (by simp [hx])]
      rfl
  · intro lines host
    have h1 : (load parseIP ipStr lines).1 =
        foldUpd (discovered parseIP lines) [] := by
      rw [load_eq]
    rw [h1, alLookup_foldUpd]
    exact insertVals_none_eq _
  · intro lines k
    have h2 : (load parseIP ipStr lines).2 =
        foldUpd ((discovered parseIP lines).map fun p => (ipStr p.2, p.1)) [] := by
      rw [load_eq]
      dsimp only
      rw [foldRev_eq_foldUpd]
    rw [h2, alLookup_foldUpd, valsFor_map_rev]
    exact insertVals_none_eq _

/-- Witness for C6: concrete field lists exercising the host-name and
comment-handling clauses, and a concrete two-line hosts file exercising the
skip clauses. -/
theorem c6_hosts_file_parsing_witness :
    parseHostsLine ["host1", "host2"] = ["host1", "host2"]
    ∧ parseHostsLine ["host1", "#comment", "host3"] = ["host1"]
    ∧ parseHostsLine ["host1", "ho#st2", "host3"] = ["host1", "ho"]
    ∧ loadLine (fun _ => (none : Option Nat)) (fun n => toString n)
        ([], []) "onlyfield" = ([], [])
    ∧ loadLine (fun _ => (none : Option Nat)) (fun n => toString n)
        ([], []) "notanip host1" = ([], []) := by
  refine ⟨?_, ?_, ?_, ?_, ?_⟩
  · exact (c6_hosts_file_parsing Nat (fun _ => none) (fun n => toString n)).2.2.1
      ["host1", "host2"] (by decide)
  · have h : parseHostsLine ["host1", "#comment", "host3"] = ["host1"] :=
      (c6_hosts_file_parsing Nat (fun _ => none) (fun n => toString n)).2.2.2.1
        ["host1"] "#comment" ["host3"] (by decide) (by decide)
    exact h
  · have h : parseHostsLine ["host1", "ho#st2", "host3"] =
        ["host1"] ++ [String.mk ("ho#st2".data.take 2)] :=
      (c6_hosts_file_parsing Nat (fun _ => none) (fun n => toString n)).2.2.2.2.1
        ["host1"] "ho#st2" ["host3"] 1 (by decide) (by decide)
    rw [h]
    decide
  · exact (c6_hosts_file_parsing Nat (fun _ => none) (fun n => toString n)).1
      ([], []) "onlyfield" (by decide)
  · exact (c6_hosts_file_parsing Nat (fun _ => none) (fun n => toString n)).2.1
      ([], []) "notanip host1" "notanip" "host1" [] (by decide) rfl

end EtcHosts

namespace Whois

/-- One-hour TTL of `ipAddrs` entries (`whoisTTL` in the source, in Unix
seconds). -/
def whoisTTL : Nat := 3600

/-- Capacity of the `ipChan` work queue. -/
def queueCap : Nat := 255

/-- State of the `Whois` module relevant to `Begin`: the `ipAddrs` cache
mapping an address to the Unix time before which no new lookup starts, and
the buffered `ipChan` work queue. -/
structure WhoisState where
  ipAddrs : List (String × Nat)
  ipChan : List String
deriving DecidableEq

/-- Model of `cache.Get`: the stored expiry for a key, or `none` (Go returns
a zero-length byte slice). -/
def cacheGet : List (String × Nat) → String → Option Nat
  | [], _ => none
  | (k, v) :: rest, key => if k = key then some v else cacheGet rest key

/-- Model of `cache.Set`: store a value under a key, overwriting any
existing entry.  LRU eviction at the 10,000-entry bound is not modelled; it
cannot affect the entry just written. -/
def cacheSet : List (String × Nat) → String → Nat → List (String × Nat)
  | [], key, v => [(key, v)]
  | (k, w) :: rest, key, v =>
    if k = key then (k, v) :: rest else (k, w) :: cacheSet rest key v

/-- The record-and-enqueue tail of `Begin`: store now + 1 hour as the
next-eligible time, then attempt the non-blocking channel send, which
succeeds exactly when the 255-slot buffer has room. -/
def beginRecord (now : Nat) (st : WhoisState) (ip : String) : WhoisState :=
  if st.ipChan.length < queueCap then
    { ipAddrs := cacheSet st.ipAddrs ip (now + whoisTTL),
      ipChan := st.ipChan ++ [ip] }
  else
    { ipAddrs := cacheSet st.ipAddrs ip (now + whoisTTL),
      ipChan := st.ipChan }

/-- Model of `Begin` from the WHOIS module: a no-op when the cached
next-eligible time is strictly in the future; otherwise record now + 1 hour
and attempt a non-blocking enqueue, silently dropping the address when the
queue is full. -/
def Begin (now : Nat) (st : WhoisState) (ip : String) : WhoisState :=
  match cacheGet st.ipAddrs ip with
  | some exp => if exp > now then st else beginRecord now st ip
  | none => beginRecord now st ip

theorem cacheGet_cacheSet_self (c : List (String × Nat)) (key : String)
    (v : Nat) : cacheGet (cacheSet c key v) key = some v := by
  induction c with
  | nil => simp [cacheSet, cacheGet]
  | cons p rest ih =>
    obtain ⟨k, w⟩ := p
    by_cases hk : k = key <;> simp [cacheSet, cacheGet, hk, ih]

theorem beginRecord_ipChan_len (now : Nat) (st : WhoisState) (ip : String) :
    (beginRecord now st ip).ipChan.length ≤ st.ipChan.length + 1 := by
  unfold beginRecord
  split <;> simp

theorem begin_ipChan_len (now : Nat) (st : WhoisState) (ip : String) :
    (Begin now st ip).ipChan.length ≤ st.ipChan.length + 1 := by
  unfold Begin
  cases cacheGet st.ipAddrs ip with
  | none => exact beginRecord_ipChan_len now st ip
  | some exp =>
    dsimp only
    split
    · omega
    · exact beginRecord_ipChan_len now st ip

/-- C8: `Begin` is a no-op (cache and queue both unchanged) when the cached
next-eligible time for the address is strictly in the future; otherwise it
records now + 1 hour as the next-eligible time and appends the address to
the work queue exactly when the 255-slot queue has room, dropping it
otherwise; consequently two calls in rapid succession (the second strictly
within one hour of the first) enqueue at most one lookup. -/
theorem c8_whois_begin :
    (∀ now st ip exp, cacheGet st.ipAddrs ip = some exp → exp > now →
        Begin now st ip = st)
    ∧ (∀ now st ip,
        (cacheGet st.ipAddrs ip = none ∨
          ∃ exp, cacheGet st.ipAddrs ip = some exp ∧ ¬exp > now) →
        cacheGet (Begin now st ip).ipAddrs ip = some (now + whoisTTL)
        ∧ (Begin now st ip).ipChan =
            (if st.ipChan.length < queueCap then st.ipChan ++ [ip]
             else st.ipChan))
    ∧ (∀ now1 now2 st ip, now1 ≤ now2 → now2 < now1 + whoisTTL →
        (Begin now2 (Begin now1 st ip) ip).ipChan.length ≤
          st.ipChan.length + 1) := by
  refine ⟨?_, ?_, ?_⟩
  · intro now st ip exp hget hfut
    unfold Begin
    rw [hget]
    simp [hfut]
  · intro now st ip hel
    have hb : Begin now st ip = beginRecord now st ip := by
      unfold Begin
      rcases hel with h | ⟨exp, hget, hpast⟩
      · rw [h]
      · rw [hget]
        simp [hpast]
    rw [hb]
    unfold beginRecord
    constructor
    · split <;> simp [cacheGet_cacheSet_self]
    · split <;> rfl
  · intro now1 now2 st ip h12 hlt
    cases hget : cacheGet st.ipAddrs ip with
    | some exp =>
      by_cases hfut : exp > now1
      · have h1 : Begin now1 st ip = st := by
          unfold Begin
          rw [hget]
          simp [hfut]
        rw [h1]
        exact begin_ipChan_len now2 st ip
      · have h1 : Begin now1 st ip = beginRecord now1 st ip := by
          unfold Begin
          rw [hget]
          simp [hfut]
        have hgets : cacheGet (beginRecord now1 st ip).ipAddrs ip =
            some (now1 + whoisTTL) := by
          unfold beginRecord
          split <;> simp [cacheGet_cacheSet_self]
        have h2 : Begin now2 (beginRecord now1 st ip) ip =
            beginRecord now1 st ip := by
          unfold Begin
          rw [hgets]
          simp only [if_pos (by omega : now1 + whoisTTL > now2)]
        rw [h1, h2]
        exact beginRecord_ipChan_len now1 st ip
    | none =>
      have h1 : Begin now1 st ip = beginRecord now1 st ip := by
        unfold Begin
        rw [hget]
      have hgets : cacheGet (beginRecord now1 st ip).ipAddrs ip =
          some (now1 + whoisTTL) := by
        unfold beginRecord
        split <;> simp [cacheGet_cacheSet_self]
      have h2 : Begin now2 (beginRecord now1 st ip) ip =
          beginRecord now1 st ip := by
        unfold Begin
        rw [hgets]
        simp only [if_pos (by omega : now1 + whoisTTL > now2)]
      rw [h1, h2]
      exact beginRecord_ipChan_len now1 st ip

/-- Witness for C8: a concrete double `Begin` on a fresh state enqueues the
address once, and the second call is a no-op. -/
theorem c8_whois_begin_witness :
    (Begin 1000 (Begin 1000 ⟨[], []⟩ "1.2.3.4") "1.2.3.4").ipChan.length ≤
      0 + 1
    ∧ Begin 1000 ⟨[("1.2.3.4", 4600)], ["1.2.3.4"]⟩ "1.2.3.4" =
        ⟨[("1.2.3.4", 4600)], ["1.2.3.4"]⟩ := by
  constructor
  · exact c8_whois_begin.2.2 1000 1000 ⟨[], []⟩ "1.2.3.4" (by decide)
      (by decide)
  · exact c8_whois_begin.1 1000 ⟨[("1.2.3.4", 4600)], ["1.2.3.4"]⟩ "1.2.3.4"
      4600 (by decide) (by decide)

end Whois

namespace Stats

/-- Model of `aghalg.NullBool`. -/
inductive NullBool where
  | nbNull : NullBool
  | nbTrue : NullBool
  | nbFalse : NullBool
deriving DecidableEq

/-- The statistics configuration guarded by the single stats lock: enabled
flag, rotation interval `limitIvl` (nanoseconds), and the ignored-host
set. -/
structure StatsConfig where
  enabled : Bool
  limitIvlNs : Nat
  ignored : List String
deriving DecidableEq

/-- Decoded body of the v2 config request (`configRespV2`): enabled
tri-state, interval in milliseconds, ignored host list.  Go decodes the
interval as a float64 of milliseconds; the claims involve whole
milliseconds only, modelled as `Nat`. -/
structure ConfigReqV2 where
  enabled : NullBool
  intervalMs : Nat
  ignored : List String
deriving DecidableEq

def millisecondNs : Nat := 1000000

def hourNs : Nat := 3600000000000

def dayNs : Nat := 24 * hourNs

/-- An HTTP response: status code and body message (`aghhttp.Error` writes
the formatted message; the trailing newline is omitted here). -/
structure HTTPResp where
  status : Nat
  body : String
deriving DecidableEq

def respOK : HTTPResp := { status := 200, body := "" }

/-- Modelled from the spec: `aghnet.NewDomainNameSet` is not among the
presented sources.  Per the specification it validates the ignored-host
list, rejecting an empty entry with `host name is empty` and an exact
duplicate with `duplicate host name "<host>"`, and otherwise collects the
hosts into a set. -/
def newDomainNameSet (hosts : List String) : Except String (List String) :=
  go [] hosts
where
  go (acc : List String) : List String → Except String (List String)
    | [] => .ok acc
    | h :: rest =>
      if h = "" then .error "host name is empty"
      else if h ∈ acc then .error ("duplicate host name \"" ++ h ++ "\"")
      else go (acc ++ [h]) rest

/-- Model of `handleStatsConfigV2` (the `stats/http.go` revision carrying
`limitIvl` and `enabled`; PUT /control/stats/config/update).  A `none`
request models a body that fails JSON decoding.  The handler validates the
interval first and returns with the configuration untouched on failure; on
success it commits the enabled flag and the interval, and only then
validates a non-empty ignored list, returning the validation error with the
commit already applied.  (The deferred `configModified` callback is not
modelled; it fires on every path past decoding.) -/
def handleStatsConfigV2 (st : StatsConfig) (req : Option ConfigReqV2) :
    HTTPResp × StatsConfig :=
  match req with
  | none => ({ status := 400, body := "json decode" }, st)
  | some r =>
    if r.intervalMs * millisecondNs < hourNs ∨
        r.intervalMs * millisecondNs > 365 * dayNs then
      ({ status := 400, body := "unsupported interval" }, st)
    else if 0 < r.ignored.length then
      match newDomainNameSet r.ignored with
      | .error e =>
        ({ status := 400, body := "ignored: " ++ e },
         { st with enabled := r.enabled == NullBool.nbTrue,
                   limitIvlNs := r.intervalMs * millisecondNs })
      | .ok set =>
        (respOK,
         { enabled := r.enabled == NullBool.nbTrue,
           limitIvlNs := r.intervalMs * millisecondNs,
           ignored := set })
    else
      (respOK,
       { st with enabled := r.enabled == NullBool.nbTrue,
                 limitIvlNs := r.intervalMs * millisecondNs })

/-- View returned by `handleStatsInfoV2` (GET /control/stats/config):
enabled tri-state via `BoolToNullBool`, interval in milliseconds, ignored
values. -/
structure ConfigView where
  enabled : NullBool
  intervalMs : Nat
  ignored : List String
deriving DecidableEq

/-- Model of `handleStatsInfoV2`. -/
def handleStatsInfoV2 (st : StatsConfig) : ConfigView :=
  { enabled := if st.enabled then NullBool.nbTrue else NullBool.nbFalse,
    intervalMs := st.limitIvlNs / millisecondNs,
    ignored := st.ignored }

/-- C2 counterexample: a PUT whose interval (48 hours) passes validation but
whose ignored list holds a duplicate is rejected with a 4xx response, yet
the stored configuration is not left unchanged — the retention interval and
enabled flag have already been applied, so a subsequent GET no longer
returns the pre-request values. -/
theorem c2_counterexample :
    (handleStatsConfigV2
        { enabled := false, limitIvlNs := 24 * hourNs, ignored := [] }
        (some { enabled := NullBool.nbTrue, intervalMs := 172800000,
                ignored := ["ignor.ed", "ignor.ed"] })).1.status = 400
    ∧ (handleStatsConfigV2
        { enabled := false, limitIvlNs := 24 * hourNs, ignored := [] }
        (some { enabled := NullBool.nbTrue, intervalMs := 172800000,
                ignored := ["ignor.ed", "ignor.ed"] })).2 ≠
        { enabled := false, limitIvlNs := 24 * hourNs, ignored := [] }
    ∧ handleStatsInfoV2 (handleStatsConfigV2
        { enabled := false, limitIvlNs := 24 * hourNs, ignored := [] }
        (some { enabled := NullBool.nbTrue, intervalMs := 172800000,
                ignored := ["ignor.ed", "ignor.ed"] })).2 ≠
        handleStatsInfoV2
          { enabled := false, limitIvlNs := 24 * hourNs, ignored := [] } := by
  refine ⟨?_, ?_, ?_⟩ <;> decide

/-- C2 (amended): a PUT that fails JSON decoding or interval validation is
rejected with a 4xx response — body exactly `unsupported interval` for the
interval — and the configuration is left entirely unchanged, so a
subsequent GET returns the pre-request view.  A PUT with a valid interval
but a malformed ignored list is rejected with a 4xx response whose message
names the violation, but the enabled flag and the retention interval have
already been applied; only the ignored set is left unchanged. -/
theorem c2_stats_config_v2_amended :
    (∀ st, handleStatsConfigV2 st none =
        ({ status := 400, body := "json decode" }, st))
    ∧ (∀ st r, (r.intervalMs * millisecondNs < hourNs ∨
          r.intervalMs * millisecondNs > 365 * dayNs) →
        handleStatsConfigV2 st (some r) =
          ({ status := 400, body := "unsupported interval" }, st)
        ∧ handleStatsInfoV2 (handleStatsConfigV2 st (some r)).2 =
            handleStatsInfoV2 st)
    ∧ (∀ st r e, ¬(r.intervalMs * millisecondNs < hourNs ∨
          r.intervalMs * millisecondNs > 365 * dayNs) →
        0 < r.ignored.length →
        newDomainNameSet r.ignored = .error e →
        (handleStatsConfigV2 st (some r)).1 =
          { status := 400, body := "ignored: " ++ e }
        ∧ (handleStatsConfigV2 st (some r)).2.ignored = st.ignored
        ∧ (handleStatsConfigV2 st (some r)).2.enabled =
            (r.enabled == NullBool.nbTrue)
        ∧ (handleStatsConfigV2 st (some r)).2.limitIvlNs =
            r.intervalMs * millisecondNs) := by
  refine ⟨fun st => rfl, ?_, ?_⟩
  · intro st r hbad
    have h : handleStatsConfigV2 st (some r) =
        ({ status := 400, body := "unsupported interval" }, st) := by
      simp only [handleStatsConfigV2, if_pos hbad]
    exact ⟨h, by rw [h]⟩
  · intro st r e hok hlen herr
    simp only [handleStatsConfigV2, if_neg hok, if_pos hlen, herr]
    exact ⟨trivial, trivial, trivial, trivial⟩

/-- Witness for C2 (amended): a half-hour interval is rejected unchanged,
and a duplicate ignored host is rejected with the interval already
applied. -/
theorem c2_stats_config_v2_amended_witness :
    handleStatsConfigV2
        { enabled := true, limitIvlNs := 24 * hourNs, ignored := [] }
        (some { enabled := NullBool.nbTrue, intervalMs := 1800000,
                ignored := [] }) =
      ({ status := 400, body := "unsupported interval" },
       { enabled := true, limitIvlNs := 24 * hourNs, ignored := [] })
    ∧ (handleStatsConfigV2
        { enabled := true, limitIvlNs := 24 * hourNs, ignored := [] }
        (some { enabled := NullBool.nbTrue, intervalMs := 3600000,
                ignored := [""] })).1 =
      { status := 400, body := "ignored: " ++ "host name is empty" } := by
  constructor
  · exact (c2_stats_config_v2_amended.2.1
      { enabled := true, limitIvlNs := 24 * hourNs, ignored := [] }
      { enabled := NullBool.nbTrue, intervalMs := 1800000, ignored := [] }
      (by decide)).1
  · exact (c2_stats_config_v2_amended.2.2
      { enabled := true, limitIvlNs := 24 * hourNs, ignored := [] }
      { enabled := NullBool.nbTrue, intervalMs := 3600000, ignored := [""] }
      "host name is empty" (by decide) (by decide) rfl).1

/-- Lock operations on the statistics mutex. -/
inductive LockOp where
  | lock : LockOp
  | unlock : LockOp
deriving DecidableEq

/-- Decode outcome of the legacy config request body (`configResp`,
`{interval: days}` with days a `uint32`). -/
inductive LegacyReq where
  | badJSON : LegacyReq
  | ok : Nat → LegacyReq
deriving DecidableEq

/-- Modelled from the spec: `checkInterval` is not among the presented
sources; per the specification it accepts the documented day counts 0, 1,
7, 30, 90 and 365. -/
def checkInterval (days : Nat) : Bool :=
  days == 0 || days == 1 || days == 7 || days == 30 || days == 90 ||
    days == 365

/-- Model of the legacy `handleStatsConfig` revision of `stats/http.go`
(POST /control/stats_config), which calls `s.lock.Unlock()` on both error
returns and `s.lock.Lock()` with a deferred unlock on the success path.
The result records the HTTP response, the new limit in days, and the exact
sequence of mutex operations performed. -/
def handleStatsConfig (limitDays : Nat) (req : LegacyReq) :
    HTTPResp × Nat × List LockOp :=
  match req with
  | .badJSON =>
    ({ status := 400, body := "json decode" }, limitDays, [LockOp.unlock])
  | .ok days =>
    if !checkInterval days then
      ({ status := 400, body := "Unsupported interval" }, limitDays,
       [LockOp.unlock])
    else
      (respOK, days, [LockOp.lock, LockOp.unlock])

/-- Whether a trace performs an unlock at a moment when the mutex is not
held; `depth` is the number of locks currently held. -/
def unlockWithoutLock (depth : Nat) : List LockOp → Bool
  | [] => false
  | LockOp.lock :: tr => unlockWithoutLock (depth + 1) tr
  | LockOp.unlock :: tr =>
    if depth = 0 then true else unlockWithoutLock (depth - 1) tr

/-- C10: the legacy `handleStatsConfig` revision unlocks the statistics
mutex without a preceding lock on both error paths — a body that fails JSON
decoding and a decoded interval rejected by `checkInterval` — while the
success path is lock-balanced. -/
theorem c10_legacy_stats_config_lock :
    (∀ ld, unlockWithoutLock 0
        (handleStatsConfig ld LegacyReq.badJSON).2.2 = true)
    ∧ (∀ ld days, checkInterval days = false →
        unlockWithoutLock 0
          (handleStatsConfig ld (LegacyReq.ok days)).2.2 = true)
    ∧ (∀ ld days, checkInterval days = true →
        unlockWithoutLock 0
          (handleStatsConfig ld (LegacyReq.ok days)).2.2 = false) := by
  refine ⟨fun ld => rfl, ?_, ?_⟩
  · intro ld days h
    simp [handleStatsConfig, h, unlockWithoutLock]
  · intro ld days h
    simp [handleStatsConfig, h, unlockWithoutLock]

/-- Witness for C10: a decode failure and the unsupported 5-day interval
both trigger the unbalanced unlock; the accepted 1-day interval does
not. -/
theorem c10_legacy_stats_config_lock_witness :
    unlockWithoutLock 0 (handleStatsConfig 90 LegacyReq.badJSON).2.2 = true
    ∧ unlockWithoutLock 0 (handleStatsConfig 90 (LegacyReq.ok 5)).2.2 = true
    ∧ unlockWithoutLock 0 (handleStatsConfig 90 (LegacyReq.ok 1)).2.2 =
        false := by
  refine ⟨c10_legacy_stats_config_lock.1 90,
    c10_legacy_stats_config_lock.2.1 90 5 (by decide),
    c10_legacy_stats_config_lock.2.2 90 1 (by decide)⟩

end Stats

namespace MobileConfig

/-- The two DNS protocols served by the mobile-configuration endpoints
(`dnsProtoHTTPS` and `dnsProtoTLS`). -/
inductive Proto where
  | https : Proto
  | tls : Proto
deriving DecidableEq

/-- The parts of the handler's HTTP response the claims are about: status
code, JSON error-document message when on an error path, and the two
headers set on success. -/
structure MCResp where
  status : Nat
  errMsg : Option String
  contentType : Option String
  contentDisposition : Option String
deriving DecidableEq

/-- Model of `respondJSONError` from src/unnamed/part_000: writes a JSON
error document with the given message.  The source passes
`http.StatusInternalServerError` to `w.WriteHeader` unconditionally and
never uses the `status` argument, so every caller gets a 500. -/
def respondJSONError (status : Nat) (msg : String) : MCResp :=
  { status := 500, errMsg := some msg,
    contentType := none, contentDisposition := none }

def errEmptyHost : String := "no host in query parameters and no server_name"

/-- Model of `handleMobileConfig` from src/unnamed/part_000.
`validateClientID` models `dnsforward.ValidateClientID` (not among the
presented sources): it returns the validator's error message, or `none` for
a valid identifier; an empty `client_id` is not validated.
`getMobileConfig` cannot fail for the two protocols the endpoints register,
so the success path always writes the XML content type and the protocol's
attachment header. -/
def handleMobileConfig (validateClientID : String → Option String)
    (dnsp : Proto) (host clientID : String) : MCResp :=
  if host = "" then respondJSONError 500 errEmptyHost
  else
    match (if clientID = "" then none else validateClientID clientID) with
    | some e => respondJSONError 400 e
    | none =>
      { status := 200, errMsg := none,
        contentType := some "application/xml",
        contentDisposition := some
          (if dnsp = Proto.tls then "attachment; filename=dot.mobileconfig"
           else "attachment; filename=doh.mobileconfig") }

/-- C3: behavior of the mobile-configuration handlers.  A missing `host`
yields the error document with message exactly `no host in query parameters
and no server_name`; a request with a valid host succeeds with Content-Type
`application/xml` and the `doh.mobileconfig`/`dot.mobileconfig` attachment
header.  A non-empty client identifier rejected by the validator is,
however, answered with HTTP status 500 carrying the validator's message —
not a 4xx client error — because `respondJSONError` ignores the
`http.StatusBadRequest` its caller passes. -/
theorem c3_mobileconfig_handler (validate : String → Option String) :
    (∀ dnsp clientID,
        (handleMobileConfig validate dnsp "" clientID).errMsg =
          some "no host in query parameters and no server_name")
    ∧ (∀ dnsp host clientID e, host ≠ "" → clientID ≠ "" →
        validate clientID = some e →
        (handleMobileConfig validate dnsp host clientID).status = 500
        ∧ (handleMobileConfig validate dnsp host clientID).errMsg = some e)
    ∧ (∀ host clientID, host ≠ "" →
        (clientID = "" ∨ validate clientID = none) →
        handleMobileConfig validate Proto.https host clientID =
          { status := 200, errMsg := none,
            contentType := some "application/xml",
            contentDisposition :=
              some "attachment; filename=doh.mobileconfig" }
        ∧ handleMobileConfig validate Proto.tls host clientID =
          { status := 200, errMsg := none,
            contentType := some "application/xml",
            contentDisposition :=
              some "attachment; filename=dot.mobileconfig" }) := by
  refine ⟨?_, ?_, ?_⟩
  · intro dnsp clientID
    simp [handleMobileConfig, respondJSONError, errEmptyHost]
  · intro dnsp host clientID e hhost hcid hval
    simp only [handleMobileConfig, if_neg hhost, if_neg hcid, hval]
    exact ⟨rfl, rfl⟩
  · intro host clientID hhost hok
    have hv : (if clientID = "" then none else validate clientID) = none := by
      rcases hok with h | h
      · rw [if_pos h]
      · by_cases hc : clientID = ""
        · rw [if_pos hc]
        · rw [if_neg hc, h]
    constructor <;>
      simp only [handleMobileConfig, if_neg hhost, hv] <;> rfl

/-- Witness for C3: a concrete rejected client identifier receives status
500 with the validator's message, and a valid request receives the DoH
headers. -/
theorem c3_mobileconfig_handler_witness :
    (handleMobileConfig (fun _ => some "invalid char") Proto.https
        "example.org" "bad!").status = 500
    ∧ (handleMobileConfig (fun _ => some "invalid char") Proto.https
        "example.org" "bad!").errMsg = some "invalid char"
    ∧ handleMobileConfig (fun _ => some "invalid char") Proto.https
        "example.org" "" =
      { status := 200, errMsg := none,
        contentType := some "application/xml",
        contentDisposition := some "attachment; filename=doh.mobileconfig" } := by
  refine ⟨?_, ?_, ?_⟩
  · exact (c3_mobileconfig_handler (fun _ => some "invalid char")).2.1
      Proto.https "example.org" "bad!" "invalid char" (by decide) (by decide)
      rfl |>.1
  · exact (c3_mobileconfig_handler (fun _ => some "invalid char")).2.1
      Proto.https "example.org" "bad!" "invalid char" (by decide) (by decide)
      rfl |>.2
  · exact (c3_mobileconfig_handler (fun _ => some "invalid char")).2.2
      "example.org" "" (by decide) (Or.inl rfl) |>.1

end MobileConfig

namespace Dnsforward

/-- Tri-state result of a DNS pipeline stage (`resultCode`). -/
inductive ResultCode where
  | success : ResultCode
  | finish : ResultCode
  | error : ResultCode
deriving DecidableEq

/-- DNS question types relevant to the modelled stages. -/
inductive QType where
  | A : QType
  | AAAA : QType
  | PTR : QType
  | SVCB : QType
  | CNAME : QType
  | other : QType
deriving DecidableEq

/-- A DNS question: fully qualified name (with trailing dot) and type. -/
structure DnsQuestion where
  name : String
  qtype : QType
deriving DecidableEq

/-- NXDOMAIN (`dns.RcodeNameError`). -/
def rcodeNameError : Nat := 3

/-- `dns.RcodeSuccess`. -/
def rcodeSuccess : Nat := 0

/-- A response written by the DHCP-hosts stage: response code and the
addresses of its A answer records. -/
structure DnsResponse where
  rcode : Nat
  answer : List AghnetM.Addr
deriving DecidableEq

/-- Server state consulted by the DHCP-hosts stage: the configured
local-domain suffix and the DHCP-derived host-to-IP table. -/
structure DhcpHostsServer where
  localDomainSuffix : String
  tableHostToIP : List (String × AghnetM.Addr)
deriving DecidableEq

/-- Strip one trailing dot from a question name (the inverse of
`dns.Fqdn`). -/
def trimDotChars (cs : List Char) : List Char :=
  match cs.getLast? with
  | some c => if c = '.' then cs.dropLast else cs
  | none => cs

/-- Whether `host` falls under the local-domain `suffix`: it equals the
suffix or ends in `"." ++ suffix`. -/
def underSuffix (host suffix : String) : Bool :=
  host == suffix || List.isSuffixOf ('.' :: suffix.data) host.data

/-- Modelled from the spec: `processDHCPHosts` is not among the presented
sources (only its tests are).  Per §4.9 of the specification and the tests
`TestServer_ProcessDHCPHosts` and
`TestServer_ProcessDHCPHosts_localRestriction`: a question outside the
local-domain suffix passes through unchanged regardless of type or client
locality; a question under the suffix from a non-local client finishes with
an empty-answer NXDOMAIN; for a local client, a known host answers an A
query with the mapped address and an AAAA query with an empty answer (the
IPv6 stand-in), while an unknown host, and other question types, pass
through with no response written. -/
def processDHCPHosts (s : DhcpHostsServer) (isLocalClient : Bool)
    (q : DnsQuestion) : ResultCode × Option DnsResponse :=
  let host := String.mk (trimDotChars q.name.data)
  if !underSuffix host s.localDomainSuffix then (ResultCode.success, none)
  else if !isLocalClient then
    (ResultCode.finish, some { rcode := rcodeNameError, answer := [] })
  else if q.qtype ≠ QType.A ∧ q.qtype ≠ QType.AAAA then
    (ResultCode.success, none)
  else
    match EtcHosts.alLookup s.tableHostToIP host with
    | none => (ResultCode.success, none)
    | some ip =>
      if q.qtype = QType.AAAA then
        (ResultCode.success, some { rcode := rcodeSuccess, answer := [] })
      else
        (ResultCode.success, some { rcode := rcodeSuccess, answer := [ip] })

/-- C1 counterexample: an A query for `wronghost.lan.` — a name under the
local-domain suffix that is absent from the DHCP-derived table — issued by
a client classified as local passes through to upstream resolution
(`success` with no response written); the stage result is not the
finish/terminate variant, contrary to the claim. -/
theorem c1_counterexample :
    processDHCPHosts
        { localDomainSuffix := "lan",
          tableHostToIP := [("example.lan", AghnetM.Addr.v4 1 2 3 4)] }
        true { name := "wronghost.lan.", qtype := QType.A } =
      (ResultCode.success, none)
    ∧ (processDHCPHosts
        { localDomainSuffix := "lan",
          tableHostToIP := [("example.lan", AghnetM.Addr.v4 1 2 3 4)] }
        true { name := "wronghost.lan.", qtype := QType.A }).1 ≠
      ResultCode.finish := by
  constructor <;> decide

/-- C1 (amended): for an A query whose name falls under the local-domain
suffix and is not present in the DHCP-derived hostname table, the stage
returns the terminal empty-answer NXDOMAIN exactly when the client is NOT
classified as local; when the client is local, the unknown name passes
through to upstream resolution (`success`, no response written). -/
theorem c1_dhcp_hosts_unknown_amended (s : DhcpHostsServer)
    (q : DnsQuestion)
    (hu : underSuffix (String.mk (trimDotChars q.name.data))
      s.localDomainSuffix = true)
    (hq : q.qtype = QType.A)
    (hmiss : EtcHosts.alLookup s.tableHostToIP
      (String.mk (trimDotChars q.name.data)) = none) :
    processDHCPHosts s false q =
      (ResultCode.finish, some { rcode := rcodeNameError, answer := [] })
    ∧ processDHCPHosts s true q = (ResultCode.success, none) := by
  constructor
  · simp only [processDHCPHosts, hu]
    rfl
  · simp only [processDHCPHosts, hu, hq, hmiss]
    simp

/-- Witness for C1 (amended): the concrete unknown host of the tests,
`wronghost.lan.`, terminates with NXDOMAIN for a non-local client and
passes through for a local client. -/
theorem c1_dhcp_hosts_unknown_amended_witness :
    processDHCPHosts
        { localDomainSuffix := "lan",
          tableHostToIP := [("example.lan", AghnetM.Addr.v4 1 2 3 4)] }
        false { name := "wronghost.lan.", qtype := QType.A } =
      (ResultCode.finish, some { rcode := rcodeNameError, answer := [] })
    ∧ processDHCPHosts
        { localDomainSuffix := "lan",
          tableHostToIP := [("example.lan", AghnetM.Addr.v4 1 2 3 4)] }
        true { name := "wronghost.lan.", qtype := QType.A } =
      (ResultCode.success, none) := by
  exact c1_dhcp_hosts_unknown_amended
    { localDomainSuffix := "lan",
      tableHostToIP := [("example.lan", AghnetM.Addr.v4 1 2 3 4)] }
    { name := "wronghost.lan.", qtype := QType.A }
    (by decide) rfl (by decide)

/-- An SVCB answer record of the DDR stage: priority, target FQDN, ALPN
token, port, and the DoH path template when present. -/
structure SVCBRec where
  priority : Nat
  target : String
  alpn : String
  port : Nat
  dohPath : Option String
deriving DecidableEq

/-- The well-known DDR discovery name (`ddrHostFQDN`). -/
def ddrHostFQDN : String := "_dns.resolver.arpa."

/-- The configuration the DDR stage consults: the administrative
`HandleDDR` flag, the TLS certificate server name, the configured listener
ports per encrypted transport, and whether the server has IP addresses
(required for DoT records). -/
structure DdrServer where
  handleDDR : Bool
  serverName : String
  httpsPorts : List Nat
  tlsPorts : List Nat
  quicPorts : List Nat
  hasIPAddrs : Bool
deriving DecidableEq

/-- Model of `dns.Fqdn`: append a trailing dot unless already present. -/
def fqdn (s : String) : String :=
  match s.data.getLast? with
  | some c => if c = '.' then s else String.mk (s.data ++ ['.'])
  | none => String.mk (s.data ++ ['.'])

/-- Modelled from the spec: the DDR answer set (`makeDDRResponse`) is not
among the presented sources (only its tests are).  Per §4.9 and
`TestServer_ProcessDDRQuery`: a non-SVCB question gets an empty answer;
otherwise one record per listening transport — DoT (only when the server
has IP addresses) with ALPN `dot`, DoH with ALPN `h2` and the DoH path
template, DoQ with ALPN `doq` — each with priority 1 and the server's TLS
certificate name as an FQDN target, in DoT, DoH, DoQ order. -/
def makeDDRAnswers (s : DdrServer) (qtype : QType) : List SVCBRec :=
  if qtype ≠ QType.SVCB then []
  else
    (if s.hasIPAddrs then
      s.tlsPorts.map fun p =>
        { priority := 1, target := fqdn s.serverName, alpn := "dot",
          port := p, dohPath := none }
     else []) ++
    (s.httpsPorts.map fun p =>
      { priority := 1, target := fqdn s.serverName, alpn := "h2",
        port := p, dohPath := some "/dns-query\x7b?dns\x7d" }) ++
    (s.quicPorts.map fun p =>
      { priority := 1, target := fqdn s.serverName, alpn := "doq",
        port := p, dohPath := none })

/-- Modelled from the spec: `processDDRQuery` is not among the presented
sources (only its tests are).  Per §4.9 and the tests: with DDR
administratively disabled every query passes through; with DDR enabled, a
question naming the DDR discovery host finishes the pipeline with the
(possibly empty) DDR answer set, and any other name passes through. -/
def processDDRQuery (s : DdrServer) (q : DnsQuestion) :
    ResultCode × Option (List SVCBRec) :=
  if !s.handleDDR then (ResultCode.success, none)
  else if q.name = ddrHostFQDN then
    (ResultCode.finish, some (makeDDRAnswers s q.qtype))
  else (ResultCode.success, none)

/-- C4: for an SVCB query naming the DDR discovery host, the stage passes
the query through as a normal query when DDR is administratively disabled;
finishes the pipeline with an empty terminal answer when DDR is enabled but
no encrypted transport is listening; and when only DoT is configured on
port 8043 finishes with exactly one SVCB record of priority 1, target the
server's TLS certificate name as an FQDN, ALPN `dot`, and port 8043. -/
theorem c4_ddr_stage (s : DdrServer) (q : DnsQuestion)
    (hq : q.qtype = QType.SVCB) (hn : q.name = ddrHostFQDN) :
    (s.handleDDR = false → processDDRQuery s q = (ResultCode.success, none))
    ∧ (s.handleDDR = true → s.tlsPorts = [] → s.httpsPorts = [] →
        s.quicPorts = [] →
        processDDRQuery s q = (ResultCode.finish, some []))
    ∧ (s.handleDDR = true → s.hasIPAddrs = true → s.tlsPorts = [8043] →
        s.httpsPorts = [] → s.quicPorts = [] →
        processDDRQuery s q =
          (ResultCode.finish,
           some [{ priority := 1, target := fqdn s.serverName,
                   alpn := "dot", port := 8043, dohPath := none }])) := by
  refine ⟨?_, ?_, ?_⟩
  · intro hd
    simp [processDDRQuery, hd]
  · intro hd ht hh hqc
    simp [processDDRQuery, makeDDRAnswers, hd, hn, hq, ht, hh, hqc]
  · intro hd hip ht hh hqc
    simp [processDDRQuery, makeDDRAnswers, hd, hn, hq, ht, hh, hqc, hip]

/-- Witness for C4: the test configuration — DDR enabled, server name
`dns.example.net`, DoT alone listening on 8043 — yields exactly the test's
single `dot` record, and the same query with DDR disabled passes
through. -/
theorem c4_ddr_stage_witness :
    processDDRQuery
        { handleDDR := true, serverName := "dns.example.net",
          httpsPorts := [], tlsPorts := [8043], quicPorts := [],
          hasIPAddrs := true }
        { name := "_dns.resolver.arpa.", qtype := QType.SVCB } =
      (ResultCode.finish,
       some [{ priority := 1, target := "dns.example.net.", alpn := "dot",
               port := 8043, dohPath := none }])
    ∧ processDDRQuery
        { handleDDR := false, serverName := "dns.example.net",
          httpsPorts := [8043], tlsPorts := [], quicPorts := [],
          hasIPAddrs := false }
        { name := "_dns.resolver.arpa.", qtype := QType.SVCB } =
      (ResultCode.success, none) := by
  constructor
  · have h := (c4_ddr_stage
      { handleDDR := true, serverName := "dns.example.net",
        httpsPorts := [], tlsPorts := [8043], quicPorts := [],
        hasIPAddrs := true }
      { name := "_dns.resolver.arpa.", qtype := QType.SVCB }
      rfl rfl).2.2 rfl rfl rfl rfl rfl
    rw [h]
    rfl
  · exact (c4_ddr_stage
      { handleDDR := false, serverName := "dns.example.net",
        httpsPorts := [8043], tlsPorts := [], quicPorts := [],
        hasIPAddrs := false }
      { name := "_dns.resolver.arpa.", qtype := QType.SVCB }
      rfl rfl).1 rfl

end Dnsforward

namespace Dhcpd

/-- An IPv4 address as four octets. -/
structure IP4 where
  a : Fin 256
  b : Fin 256
  c : Fin 256
  d : Fin 256
deriving DecidableEq

/-- A DHCP lease: IP address, hardware address, optional hostname, and
expiry in Unix seconds.  Static leases carry the `leaseExpireStatic`
sentinel. -/
structure Lease where
  ip : IP4
  hwAddr : String
  hostname : String
  expiry : Nat
deriving DecidableEq

/-- The never-expires sentinel (`leaseExpireStatic`). -/
def leaseExpireStatic : Nat := 1

/-- Whether a stored lease is static
(`l.Expiry.Unix() == leaseExpireStatic`). -/
def Lease.isStatic (l : Lease) : Bool := l.expiry == leaseExpireStatic

/-- The lease kinds of `GetLeases`. -/
inductive LeaseKind where
  | leasesStatic : LeaseKind
  | leasesDynamic : LeaseKind
  | leasesAll : LeaseKind
deriving DecidableEq

/-- The v4 server's lease table. -/
structure V4State where
  leases : List Lease
deriving DecidableEq

/-- Model of `GetLeases`: static leases, dynamic leases, or all. -/
def GetLeases (st : V4State) (k : LeaseKind) : List Lease :=
  match k with
  | .leasesStatic => st.leases.filter fun l => l.isStatic
  | .leasesDynamic => st.leases.filter fun l => !l.isStatic
  | .leasesAll => st.leases

/-- Modelled from the spec: `AddStaticLease` is not among the presented
sources (only its tests are).  Per §4.5 and the tests
`TestV4_AddRemove_static` and `TestV4_AddReplace`: the caller's expiry is
replaced by the never-expires sentinel; the call fails when a static lease
with the same IP or (independently) the same hardware address already
exists; dynamic leases sharing the IP or the hardware address are removed
(the static entry replaces a dynamic occupant); the new static lease is
appended. -/
def AddStaticLease (st : V4State) (l : Lease) : Except String V4State :=
  let ls : Lease := { l with expiry := leaseExpireStatic }
  if st.leases.any (fun m =>
      m.isStatic && (m.hwAddr == ls.hwAddr || m.ip == ls.ip)) then
    .error "static lease already exists"
  else
    .ok { leases :=
      (st.leases.filter fun m =>
        m.isStatic || (m.hwAddr != ls.hwAddr && m.ip != ls.ip)) ++ [ls] }

/-- Modelled from the spec: `RemoveStaticLease` fails unless a static lease
matching both the given IP and hardware address exists; on success the
matching lease is removed. -/
def RemoveStaticLease (st : V4State) (l : Lease) : Except String V4State :=
  if st.leases.any (fun m =>
      m.isStatic && m.ip == l.ip && m.hwAddr == l.hwAddr) then
    .ok { leases := st.leases.filter fun m =>
      !(m.isStatic && m.ip == l.ip && m.hwAddr == l.hwAddr) }
  else .error "lease not found"

/-- C5 counterexample: with only a dynamic lease holding hardware address
`22:AA` (at IP .151), adding a static lease with that same hardware address
(at IP .152) succeeds — the dynamic lease is replaced — whereas the claim
states `AddStaticLease` fails whenever any lease with the same hardware
address exists.  This is the `TestV4_AddReplace` scenario. -/
theorem c5_counterexample :
    AddStaticLease
        { leases := [{ ip := { a := 192, b := 168, c := 10, d := 151 },
                       hwAddr := "22:AA", hostname := "", expiry := 86400 }] }
        { ip := { a := 192, b := 168, c := 10, d := 152 },
          hwAddr := "22:AA", hostname := "", expiry := 0 } =
      Except.ok
        { leases := [{ ip := { a := 192, b := 168, c := 10, d := 152 },
                       hwAddr := "22:AA", hostname := "",
                       expiry := leaseExpireStatic }] } := by
  rfl

/-- C5 (amended): the static-lease operations.  `AddStaticLease` fails when
a static lease with the same IP, or independently the same hardware
address, already exists, leaving the table unchanged; on success the stored
entry carries the never-expires sentinel regardless of the caller-supplied
expiry, and any dynamic lease occupying the same IP has been replaced by
the static entry.  `RemoveStaticLease` fails unless a static lease matching
both the IP and the hardware address exists, and succeeds when one does. -/
theorem c5_static_lease_table (st : V4State) (l : Lease) :
    (∀ m ∈ st.leases, m.isStatic = true → m.ip = l.ip →
        AddStaticLease st l = .error "static lease already exists")
    ∧ (∀ m ∈ st.leases, m.isStatic = true → m.hwAddr = l.hwAddr →
        AddStaticLease st l = .error "static lease already exists")
    ∧ (∀ st', AddStaticLease st l = .ok st' →
        { l with expiry := leaseExpireStatic } ∈
          GetLeases st' LeaseKind.leasesStatic)
    ∧ (∀ st' m, AddStaticLease st l = .ok st' → m ∈ st.leases →
        m.isStatic = false → m.ip = l.ip → m ∉ st'.leases)
    ∧ ((∀ m ∈ st.leases,
          ¬(m.isStatic = true ∧ m.ip = l.ip ∧ m.hwAddr = l.hwAddr)) →
        RemoveStaticLease st l = .error "lease not found")
    ∧ (∀ m ∈ st.leases, m.isStatic = true → m.ip = l.ip →
        m.hwAddr = l.hwAddr → ∃ st', RemoveStaticLease st l = .ok st') := by
  refine ⟨?_, ?_, ?_, ?_, ?_, ?_⟩
  · intro m hm hs hip
    have hc : st.leases.any (fun m =>
        m.isStatic && (m.hwAddr == l.hwAddr || m.ip == l.ip)) = true := by
      rw [List.any_eq_true]
      exact ⟨m, hm, by simp [hs, hip]⟩
    simp only [AddStaticLease, hc]
    rfl
  · intro m hm hs hhw
    have hc : st.leases.any (fun m =>
        m.isStatic && (m.hwAddr == l.hwAddr || m.ip == l.ip)) = true := by
      rw [List.any_eq_true]
      exact ⟨m, hm, by simp [hs, hhw]⟩
    simp only [AddStaticLease, hc]
    rfl
  · intro st' hok
    by_cases hc : st.leases.any (fun m =>
        m.isStatic && (m.hwAddr == l.hwAddr || m.ip == l.ip)) = true
    · simp [AddStaticLease, hc] at hok
    · rw [Bool.not_eq_true] at hc
      simp [AddStaticLease, hc] at hok
      subst hok
      simp [GetLeases, List.filter_append, Lease.isStatic,
        leaseExpireStatic]
  · intro st' m hok hm hdyn hip
    by_cases hc : st.leases.any (fun m =>
        m.isStatic && (m.hwAddr == l.hwAddr || m.ip == l.ip)) = true
    · simp [AddStaticLease, hc] at hok
    · rw [Bool.not_eq_true] at hc
      simp [AddStaticLease, hc] at hok
      subst hok
      intro hmem
      have heq : m = { l with expiry := leaseExpireStatic } := by
        rcases List.mem_append.mp hmem with hin | hin
        · have hcond := (List.mem_filter.mp hin).2
          rw [hdyn] at hcond
          simp only [Bool.false_or, Bool.and_eq_true, bne_iff_ne] at hcond
          exact absurd (by simp [hip] : m.ip = Lease.ip
            { l with expiry := leaseExpireStatic }) hcond.2
        · simpa using hin
      have : m.expiry = leaseExpireStatic := by rw [heq]
      rw [Lease.isStatic] at hdyn
      simp [this] at hdyn
  · intro hall
    have hc : st.leases.any (fun m =>
        m.isStatic && m.ip == l.ip && m.hwAddr == l.hwAddr) = false := by
      rw [List.any_eq_false]
      intro m hm
      intro habs
      simp only [Bool.and_eq_true, beq_iff_eq] at habs
      exact hall m hm ⟨habs.1.1, habs.1.2, habs.2⟩
    simp only [RemoveStaticLease, hc]
    rfl
  · intro m hm hs hip hhw
    have hc : st.leases.any (fun m =>
        m.isStatic && m.ip == l.ip && m.hwAddr == l.hwAddr) = true := by
      rw [List.any_eq_true]
      exact ⟨m, hm, by simp [hs, hip, hhw]⟩
    refine ⟨{ leases := st.leases.filter fun m =>
      !(m.isStatic && m.ip == l.ip && m.hwAddr == l.hwAddr) }, ?_⟩
    simp [RemoveStaticLease, hc]

/-- Witness for C5 (amended): the concrete `TestV4_AddRemove_static`
interactions — re-adding the same static lease fails, the stored entry has
the sentinel expiry, removing a wrong-IP lease fails, removing the exact
lease succeeds. -/
theorem c5_static_lease_table_witness :
    AddStaticLease
        { leases := [{ ip := { a := 192, b := 168, c := 10, d := 150 },
                       hwAddr := "AA:AA", hostname := "",
                       expiry := leaseExpireStatic }] }
        { ip := { a := 192, b := 168, c := 10, d := 150 },
          hwAddr := "AA:AA", hostname := "", expiry := 0 } =
      Except.error "static lease already exists"
    ∧ (∃ st', RemoveStaticLease
        { leases := [{ ip := { a := 192, b := 168, c := 10, d := 150 },
                       hwAddr := "AA:AA", hostname := "",
                       expiry := leaseExpireStatic }] }
        { ip := { a := 192, b := 168, c := 10, d := 150 },
          hwAddr := "AA:AA", hostname := "", expiry := leaseExpireStatic } =
        Except.ok st')
    ∧ RemoveStaticLease
        { leases := [{ ip := { a := 192, b := 168, c := 10, d := 150 },
                       hwAddr := "AA:AA", hostname := "",
                       expiry := leaseExpireStatic }] }
        { ip := { a := 192, b := 168, c := 10, d := 110 },
          hwAddr := "AA:AA", hostname := "", expiry := leaseExpireStatic } =
      Except.error "lease not found" := by
  refine ⟨?_, ?_, ?_⟩
  · exact (c5_static_lease_table
      { leases := [{ ip := { a := 192, b := 168, c := 10, d := 150 },
                     hwAddr := "AA:AA", hostname := "",
                     expiry := leaseExpireStatic }] }
      { ip := { a := 192, b := 168, c := 10, d := 150 },
        hwAddr := "AA:AA", hostname := "", expiry := 0 }).1
      { ip := { a := 192, b := 168, c := 10, d := 150 },
        hwAddr := "AA:AA", hostname := "", expiry := leaseExpireStatic }
      (by decide) (by decide) rfl
  · exact (c5_static_lease_table
      { leases := [{ ip := { a := 192, b := 168, c := 10, d := 150 },
                     hwAddr := "AA:AA", hostname := "",
                     expiry := leaseExpireStatic }] }
      { ip := { a := 192, b := 168, c := 10, d := 150 },
        hwAddr := "AA:AA", hostname := "",
        expiry := leaseExpireStatic }).2.2.2.2.2
      { ip := { a := 192, b := 168, c := 10, d := 150 },
        hwAddr := "AA:AA", hostname := "", expiry := leaseExpireStatic }
      (by decide) (by decide) rfl rfl
  · exact (c5_static_lease_table
      { leases := [{ ip := { a := 192, b := 168, c := 10, d := 150 },
                     hwAddr := "AA:AA", hostname := "",
                     expiry := leaseExpireStatic }] }
      { ip := { a := 192, b := 168, c := 10, d := 110 },
        hwAddr := "AA:AA", hostname := "",
        expiry := leaseExpireStatic }).2.2.2.2.1 (by decide)

end Dhcpd

namespace Client

/-- A loosely typed JSON primitive, as the generated entities receive their
scalar fields. -/
inductive JSPrim where
  | jbool : Bool → JSPrim
  | jnum : Int → JSPrim
  | jstr : String → JSPrim
deriving DecidableEq

/-- Modelled from the spec: the wire object of the nested `Filter` entity
(`IFilter`; Filter.ts is not among the presented sources).  Per §4.12 each
filter record carries at least id, url, name and an enabled state, all
optional. -/
structure IFilter where
  id : Option JSPrim
  url : Option JSPrim
  name : Option JSPrim
  enabled : Option JSPrim
deriving DecidableEq

/-- Modelled from the spec: the nested `Filter` entity, constructed from a
wire object by copying only the present fields of the expected primitive
type. -/
structure Filter where
  fid : Option Int
  furl : Option String
  fname : Option String
  fenabled : Option Bool
deriving DecidableEq

/-- Modelled from the spec: the `Filter` constructor. -/
def Filter.construct (p : IFilter) : Filter :=
  { fid := match p.id with | some (.jnum n) => some n | _ => none,
    furl := match p.url with | some (.jstr s) => some s | _ => none,
    fname := match p.name with | some (.jstr s) => some s | _ => none,
    fenabled := match p.enabled with | some (.jbool b) => some b | _ => none }

/-- Modelled from the spec: `Filter.serialize` emits exactly the set
fields. -/
def Filter.serialize (f : Filter) : IFilter :=
  { id := f.fid.map JSPrim.jnum,
    url := f.furl.map JSPrim.jstr,
    name := f.fname.map JSPrim.jstr,
    enabled := f.fenabled.map JSPrim.jbool }

/-- The wire object of the filtering-status entity (`IFilterStatus` from
FilterStatus.ts): every field optional; `filters` and `user_rules` are
arrays. -/
structure IFilterStatus where
  enabled : Option JSPrim
  filters : Option (List IFilter)
  interval : Option JSPrim
  user_rules : Option (List String)
deriving DecidableEq

/-- The `FilterStatus` entity of FilterStatus.ts. -/
structure FilterStatus where
  senabled : Option Bool
  sfilters : Option (List Filter)
  sinterval : Option Int
  suser_rules : Option (List String)
deriving DecidableEq

/-- Model of the `FilterStatus` constructor: `enabled` and `interval` are
copied only when they carry the expected primitive type (the `typeof`
checks); `filters` and `user_rules` are copied when present (a present
array is truthy, also when empty), each filter constructed recursively. -/
def FilterStatus.construct (p : IFilterStatus) : FilterStatus :=
  { senabled := match p.enabled with | some (.jbool b) => some b | _ => none,
    sfilters := p.filters.map (List.map Filter.construct),
    sinterval := match p.interval with | some (.jnum n) => some n | _ => none,
    suser_rules := p.user_rules }

/-- Model of `FilterStatus.serialize`: emits exactly the fields that are
set, serializing each filter recursively. -/
def FilterStatus.serialize (fs : FilterStatus) : IFilterStatus :=
  { enabled := fs.senabled.map JSPrim.jbool,
    filters := fs.sfilters.map (List.map Filter.serialize),
    interval := fs.sinterval.map JSPrim.jnum,
    user_rules := fs.suser_rules }

/-- A partial override for `update` (`Partial<IFilterStatus>`): an absent
field does not override. -/
structure PartialIFilterStatus where
  enabled : Option JSPrim
  filters : Option (List IFilter)
  interval : Option JSPrim
  user_rules : Option (List String)
deriving DecidableEq

/-- The empty partial override. -/
def emptyPartial : PartialIFilterStatus :=
  { enabled := none, filters := none, interval := none, user_rules := none }

/-- Model of `FilterStatus.update`: overlay the partial changes on the
serialized current state (JavaScript object spread: a present override key
wins) and construct a new entity from the merged object. -/
def FilterStatus.update (fs : FilterStatus) (props : PartialIFilterStatus) :
    FilterStatus :=
  FilterStatus.construct
    { enabled := match props.enabled with
        | some v => some v
        | none => (FilterStatus.serialize fs).enabled,
      filters := match props.filters with
        | some v => some v
        | none => (FilterStatus.serialize fs).filters,
      interval := match props.interval with
        | some v => some v
        | none => (FilterStatus.serialize fs).interval,
      user_rules := match props.user_rules with
        | some v => some v
        | none => (FilterStatus.serialize fs).user_rules }

theorem filter_construct_serialize (f : Filter) :
    Filter.construct (Filter.serialize f) = f := by
  obtain ⟨fid, furl, fname, fenabled⟩ := f
  cases fid <;> cases furl <;> cases fname <;> cases fenabled <;> rfl

theorem filter_status_construct_serialize (fs : FilterStatus) :
    FilterStatus.construct (FilterStatus.serialize fs) = fs := by
  obtain ⟨se, sf, si, su⟩ := fs
  simp only [FilterStatus.construct, FilterStatus.serialize,
    FilterStatus.mk.injEq]
  refine ⟨?_, ?_, ?_, trivial⟩
  · cases se <;> rfl
  · cases sf with
    | none => rfl
    | some fl =>
      show some (List.map Filter.construct (List.map Filter.serialize fl)) =
        some fl
      rw [List.map_map]
      rw [show Filter.construct ∘ Filter.serialize = id from
        funext fun f => filter_construct_serialize f]
      rw [List.map_id]
  · cases si <;> rfl

/-- C9: `serialize` after construction emits exactly the fields set at
construction — `enabled`/`interval` exactly when the input carried a
boolean/number, `filters` and `user_rules` exactly when present, with
values preserved — and `update` with an empty partial override produces an
entity whose serialization deep-equals the original's. -/
theorem c9_filter_status_dto :
    (∀ p : IFilterStatus,
        (FilterStatus.construct p).serialize =
          { enabled := match p.enabled with
              | some (.jbool b) => some (.jbool b)
              | _ => none,
            filters := p.filters.map (List.map fun f =>
              Filter.serialize (Filter.construct f)),
            interval := match p.interval with
              | some (.jnum n) => some (.jnum n)
              | _ => none,
            user_rules := p.user_rules })
    ∧ (∀ f : Filter, Filter.construct (Filter.serialize f) = f)
    ∧ (∀ fs : FilterStatus,
        (fs.update emptyPartial).serialize = fs.serialize) := by
  refine ⟨?_, filter_construct_serialize, ?_⟩
  · intro p
    obtain ⟨en, fl, iv, ur⟩ := p
    simp only [FilterStatus.construct, FilterStatus.serialize,
      IFilterStatus.mk.injEq]
    refine ⟨?_, ?_, ?_, trivial⟩
    · cases en with
      | none => rfl
      | some v => cases v <;> rfl
    · cases fl <;> simp
    · cases iv with
      | none => rfl
      | some v => cases v <;> rfl
  · intro fs
    have hmerge : fs.update emptyPartial =
        FilterStatus.construct (FilterStatus.serialize fs) := rfl
    rw [hmerge, filter_status_construct_serialize]

end Client
